import Mathlib

/-!
# osmium::index::map::MmapAnon

A shallow embedding of `include/osmium/index/map/mmap_anon.hpp`: the class
`MmapAnon<TKey, TValue>`, a growing array of `TValue` kept in an anonymous
memory mapping and indexed by `TKey`.

* `size_t` is the 64-bit unsigned type of Linux; every sum, difference and
  product of sizes is taken modulo `2 ^ 64`, written out with `%`.
* `TKey` is taken to be an unsigned 64-bit type (as osmium's
  `unsigned_object_id_type`), so a key is its offset
  `static_cast<size_t>(id)` and `id + size_increment` is a `size_t` sum.
* The mapping that `m_items` points to is part of the instance state: the
  class owns it exclusively.  It is a byte length together with the objects
  at each element offset.  An access outside the mapped bytes, or through a
  pointer that is no mapping, is undefined behaviour (`Outcome.undefined`).
* Whether the kernel satisfies `mmap` / `mremap` is not decided by the
  program; each call that may map memory takes a `Sys` saying what the
  kernel does.
-/

set_option autoImplicit false

namespace Osmium

/-- The type `size_t`: the naturals below `2 ^ 64`. -/
abbrev size_t : Type := Fin (2 ^ 64)

/-- Conversion of a mathematical result to `size_t`: reduction modulo `2 ^ 64`. -/
def to_size_t (n : Nat) : size_t := ⟨n % 2 ^ 64, Nat.mod_lt n (by decide)⟩

/-- The key type, an unsigned 64-bit integer: a key is given by the offset
`static_cast<size_t>(id)`. -/
abbrev TKey : Type := size_t

/-- The requirements on the template parameter `TValue`: a default
constructor (`default` is `TValue()`) and a positive `sizeof`.  The
`operator==` used by `get` is the decidable equality of the type. -/
class ValueType (TValue : Type) extends Inhabited TValue where
  /-- The byte size `sizeof(TValue)`. -/
  sizeof : Nat
  /-- No object has size zero. -/
  sizeof_pos : 0 < sizeof

/-- The exceptions thrown by the class. -/
inductive Exception where
  | bad_alloc
  | out_of_range
  deriving DecidableEq, Repr

/-- How a call ends: it returns, it throws, or it runs into undefined
behaviour (after which nothing is known about the program). -/
inductive Outcome (α : Type) where
  | returned (a : α)
  | threw (e : Exception)
  | undefined
  deriving DecidableEq, Repr

/-- What the kernel does at one `mmap` / `mremap` request: whether it can
satisfy it, and what the fresh pages read as at type `TValue`. -/
structure Sys (TValue : Type) where
  succeeds : Bool
  fill : TValue

/-- A value of type `TValue*` as used by the class, with the memory it
designates: the null pointer, `MAP_FAILED`, or the start of a live mapping
of `length` bytes whose element at offset `i` is `cells i`. -/
inductive Ptr (TValue : Type) where
  | nullptr
  | MAP_FAILED
  | mapped (length : Nat) (cells : Nat → TValue)

section Memory

variable {TValue : Type} [ValueType TValue]

/-- Element `i` lies within the first `length` bytes. -/
def covers (TValue : Type) [ValueType TValue] (length i : Nat) : Prop :=
  ValueType.sizeof TValue * (i + 1) ≤ length

instance (length i : Nat) : Decidable (covers TValue length i) := by
  unfold covers
  infer_instance

/-- The read `p[i]`; `none` is undefined behaviour. -/
def Ptr.load (p : Ptr TValue) (i : Nat) : Option TValue :=
  match p with
  | Ptr.mapped length cells => if covers TValue length i then some (cells i) else none
  | _ => none

/-- The write `p[i] = x`; `none` is undefined behaviour. -/
def Ptr.store (p : Ptr TValue) (i : Nat) (x : TValue) : Option (Ptr TValue) :=
  match p with
  | Ptr.mapped length cells =>
    if covers TValue length i then
      some (Ptr.mapped length (fun j => if j = i then x else cells j))
    else none
  | _ => none

/-- The expression `new (p + off) TValue[n]`: the `n` elements from offset
`off` become default-initialised objects, which hold `TValue()` (for a class
type the default constructor runs; for a trivial type the freshly mapped
zero pages are kept and `TValue()` is that zero value).  `none` is undefined
behaviour: some element lies outside the mapping. -/
def placement_new_array (p : Ptr TValue) (off n : Nat) : Option (Ptr TValue) :=
  match p with
  | Ptr.mapped length cells =>
    if n = 0 ∨ ValueType.sizeof TValue * (off + n) ≤ length then
      some (Ptr.mapped length (fun j => if off ≤ j ∧ j < off + n then default else cells j))
    else none
  | _ => none

/-- The call `mmap(NULL, length, PROT_READ | PROT_WRITE,
MAP_PRIVATE | MAP_ANONYMOUS, -1, 0)`: a fresh mapping of `length` bytes, or
`MAP_FAILED` (always so for a zero length). -/
def mmap (sys : Sys TValue) (length : Nat) : Ptr TValue :=
  if sys.succeeds = true ∧ length ≠ 0 then Ptr.mapped length (fun _ => sys.fill)
  else Ptr.MAP_FAILED

/-- The call `mremap(p, old_size, new_size, MREMAP_MAYMOVE)`: the mapping
resized to `new_size` bytes with the objects within the first `old_size`
bytes kept at their offsets and fresh pages behind them, or `MAP_FAILED`.
It fails when `p` is no mapping, when a size is zero, when `old_size`
reaches beyond the mapping, and whenever the kernel cannot satisfy it. -/
def mremap (sys : Sys TValue) (p : Ptr TValue) (old_size new_size : Nat) : Ptr TValue :=
  match p with
  | Ptr.mapped length cells =>
    if sys.succeeds = true ∧ old_size ≠ 0 ∧ new_size ≠ 0 ∧ old_size ≤ length then
      Ptr.mapped new_size (fun j => if covers TValue old_size j then cells j else sys.fill)
    else Ptr.MAP_FAILED
  | _ => Ptr.MAP_FAILED

end Memory

/-- The data members of `MmapAnon<TKey, TValue>`. -/
structure MmapAnon (TValue : Type) where
  m_size : size_t
  m_items : Ptr TValue

namespace MmapAnon

/-- The constant `size_increment = 10 * 1024 * 1024`. -/
def size_increment : size_t := ⟨10 * 1024 * 1024, by decide⟩

section Methods

variable {TValue : Type} [ValueType TValue]

/-- The constructor `MmapAnon()`. -/
def construct (sys : Sys TValue) : Outcome (MmapAnon TValue) :=
  let m_size : size_t := size_increment
  match mmap sys (to_size_t (ValueType.sizeof TValue * m_size.val)).val with
  | Ptr.MAP_FAILED => Outcome.threw Exception.bad_alloc
  | p =>
    match placement_new_array p 0 m_size.val with
    | none => Outcome.undefined
    | some q => Outcome.returned { m_size := m_size, m_items := q }

/-- The statement `m_items[id] = value;` that ends `set`. -/
def assign_item (s : MmapAnon TValue) (id : TKey) (value : TValue) :
    Outcome Unit × MmapAnon TValue :=
  match s.m_items.store id.val value with
  | none => (Outcome.undefined, s)
  | some q => (Outcome.returned (), { s with m_items := q })

/-- The method `set(id, value)`: the outcome and the state it leaves.  The
state listed with `undefined` carries no meaning. -/
def set (s : MmapAnon TValue) (sys : Sys TValue) (id : TKey) (value : TValue) :
    Outcome Unit × MmapAnon TValue :=
  if id.val ≥ s.m_size.val then
    let new_size : size_t := to_size_t (id.val + size_increment.val)
    match mremap sys s.m_items (to_size_t (ValueType.sizeof TValue * s.m_size.val)).val
        (to_size_t (ValueType.sizeof TValue * new_size.val)).val with
    | Ptr.MAP_FAILED => (Outcome.threw Exception.bad_alloc, { s with m_items := Ptr.MAP_FAILED })
    | p =>
      match placement_new_array p s.m_size.val
          (to_size_t (new_size.val + 2 ^ 64 - s.m_size.val)).val with
      | none => (Outcome.undefined, { s with m_items := p })
      | some q => assign_item { m_size := new_size, m_items := q } id value
  else assign_item s id value

/-- The method `get(id)`: the outcome and the state it leaves. -/
def get [DecidableEq TValue] (s : MmapAnon TValue) (id : TKey) :
    Outcome TValue × MmapAnon TValue :=
  if id.val ≥ s.m_size.val then (Outcome.threw Exception.out_of_range, s)
  else
    match s.m_items.load id.val with
    | none => (Outcome.undefined, s)
    | some x =>
      if x = default then (Outcome.threw Exception.out_of_range, s)
      else (Outcome.returned x, s)

/-- The method `size()`. -/
def size (s : MmapAnon TValue) : size_t := s.m_size

/-- The method `used_memory()`. -/
def used_memory (s : MmapAnon TValue) : size_t :=
  to_size_t (s.m_size.val * ValueType.sizeof TValue)

/-- The method `clear()`; the result of `munmap` is ignored by the code. -/
def clear (_s : MmapAnon TValue) : Outcome Unit × MmapAnon TValue :=
  (Outcome.returned (), { m_size := to_size_t 0, m_items := Ptr.nullptr })

/-- The object stored at offset `i` of the region of `m_items`, when the
region reaches that far. -/
def slot (s : MmapAnon TValue) (i : Nat) : Option TValue := s.m_items.load i

end Methods

end MmapAnon

/-- One call `set(id, value)` together with what the kernel does during it. -/
structure SetCall (TValue : Type) where
  sys : Sys TValue
  id : TKey
  value : TValue

namespace MmapAnon

section Runs

variable {TValue : Type} [ValueType TValue]

/-- The state after a sequence of `set` calls that all return; `none` when
one of them does not return. -/
def run (s : MmapAnon TValue) : List (SetCall TValue) → Option (MmapAnon TValue)
  | [] => some s
  | c :: cs =>
    match s.set c.sys c.id c.value with
    | (Outcome.returned (), t) => run t cs
    | _ => none

/-- The state after a successful construction followed by a sequence of
`set` calls that all return. -/
def reach (sys : Sys TValue) (calls : List (SetCall TValue)) : Option (MmapAnon TValue) :=
  match construct sys with
  | Outcome.returned s => run s calls
  | _ => none

/-- The value of the last call in the sequence whose key is `id`, if some
call has that key. -/
def last_set (calls : List (SetCall TValue)) (id : TKey) : Option TValue :=
  match calls with
  | [] => none
  | c :: cs =>
    match last_set cs id with
    | some v => some v
    | none => if c.id = id then some c.value else none

/-- The largest key offset among the calls of the sequence (zero for the
empty sequence). -/
def max_id (calls : List (SetCall TValue)) : Nat :=
  match calls with
  | [] => 0
  | c :: cs => max c.id.val (max_id cs)

/-- The class invariant of a live instance: `m_items` is a mapping of
exactly `sizeof(TValue) * m_size` bytes, a byte count that fits `size_t`. -/
def Active (s : MmapAnon TValue) : Prop :=
  ValueType.sizeof TValue * s.m_size.val < 2 ^ 64 ∧
    ∃ cells, s.m_items = Ptr.mapped (ValueType.sizeof TValue * s.m_size.val) cells

end Runs

end MmapAnon

/-- A concrete value type for examples: `uint64_t`, eight bytes, `TValue()` is `0`. -/
instance uint64_value : ValueType size_t where
  default := 0
  sizeof := 8
  sizeof_pos := by decide

namespace Examples

/-- A kernel that satisfies the request and hands out zero pages. -/
def kernel_ok : Sys size_t := ⟨true, 0⟩

/-- A kernel that cannot satisfy the request (`ENOMEM`). -/
def kernel_full : Sys size_t := ⟨false, 0⟩

/-- The key with offset `n`. -/
def key (n : Nat) : TKey := to_size_t n

end Examples

end Osmium

namespace Osmium

open MmapAnon

section Lemmas

variable {TValue : Type} [ValueType TValue]

@[simp] theorem to_size_t_val (n : Nat) : (to_size_t n).val = n % 2 ^ 64 := rfl

theorem size_increment_val : MmapAnon.size_increment.val = 10485760 := rfl

/-- Coverage of an element is inherited by every smaller offset and every longer mapping. -/
theorem covers_mono {len len2 i j : Nat} (h : covers TValue len i) (hj : j ≤ i) (hl : len ≤ len2) :
    covers TValue len2 j := by
  unfold covers at *
  have : ValueType.sizeof TValue * (j + 1) ≤ ValueType.sizeof TValue * (i + 1) :=
    Nat.mul_le_mul_left _ (by omega)
  omega

/-- A mapping of `sizeof * n` bytes covers exactly the offsets below `n`. -/
theorem covers_mul_iff {n i : Nat} : covers TValue (ValueType.sizeof TValue * n) i ↔ i < n := by
  unfold covers
  constructor
  · intro h
    have := Nat.le_of_mul_le_mul_left h (ValueType.sizeof_pos : 0 < ValueType.sizeof TValue)
    omega
  · intro h
    exact Nat.mul_le_mul_left _ (by omega)

theorem MmapAnon.set_within (s : MmapAnon TValue) (sys : Sys TValue) (id : TKey) (v : TValue)
    (h : id.val < s.m_size.val) : s.set sys id v = assign_item s id v := by
  unfold MmapAnon.set
  rw [if_neg (by omega)]

theorem MmapAnon.assign_item_size (s : MmapAnon TValue) (id : TKey) (v : TValue) :
    (assign_item s id v).2.m_size = s.m_size := by
  unfold assign_item
  cases h : s.m_items.store id.val v <;> rfl

theorem MmapAnon.assign_item_returned (s : MmapAnon TValue) (id : TKey) (v : TValue)
    (h : (assign_item s id v).1 = Outcome.returned ()) :
    ∃ len cells, s.m_items = Ptr.mapped len cells ∧ covers TValue len id.val ∧
      (assign_item s id v).2 =
        ⟨s.m_size, Ptr.mapped len (fun j => if j = id.val then v else cells j)⟩ := by
  obtain ⟨m, p⟩ := s
  cases p with
  | nullptr => simp [assign_item, Ptr.store] at h
  | MAP_FAILED => simp [assign_item, Ptr.store] at h
  | mapped len cells =>
    by_cases hc : covers TValue len id.val
    · exact ⟨len, cells, rfl, hc, by simp [assign_item, Ptr.store, hc]⟩
    · simp [assign_item, Ptr.store, hc] at h

theorem mremap_ne_nullptr (sys : Sys TValue) (p : Ptr TValue) (o n : Nat) :
    mremap sys p o n ≠ Ptr.nullptr := by
  unfold mremap
  cases p with
  | nullptr => simp
  | MAP_FAILED => simp
  | mapped len cells => simp only []; split <;> simp

theorem mremap_eq_mapped {sys : Sys TValue} {p : Ptr TValue} {o n len2 : Nat}
    {cells2 : Nat → TValue} (h : mremap sys p o n = Ptr.mapped len2 cells2) :
    ∃ len cells, p = Ptr.mapped len cells ∧ o ≠ 0 ∧ n ≠ 0 ∧ o ≤ len ∧ len2 = n ∧
      cells2 = fun j => if covers TValue o j then cells j else sys.fill := by
  unfold mremap at h
  cases p with
  | nullptr => simp at h
  | MAP_FAILED => simp at h
  | mapped len cells =>
    simp only [] at h
    split at h
    · rename_i hc
      injection h with h1 h2
      exact ⟨len, cells, rfl, hc.2.1, hc.2.2.1, hc.2.2.2, h1.symm, h2.symm⟩
    · simp at h

theorem placement_new_array_eq_some {p q : Ptr TValue} {off n : Nat}
    (h : placement_new_array p off n = some q) :
    ∃ len cells, p = Ptr.mapped len cells ∧
      (n = 0 ∨ ValueType.sizeof TValue * (off + n) ≤ len) ∧
      q = Ptr.mapped len (fun j => if off ≤ j ∧ j < off + n then default else cells j) := by
  unfold placement_new_array at h
  cases p with
  | nullptr => simp at h
  | MAP_FAILED => simp at h
  | mapped len cells =>
    simp only [] at h
    split at h
    · rename_i hc
      injection h with h1
      exact ⟨len, cells, rfl, hc, h1.symm⟩
    · simp at h

/-- What a returning `set` call did when it took the growth branch: the sum
`id + size_increment` and the byte count did not wrap, and the new region
holds the value, default objects in the added part, and the old objects. -/
theorem MmapAnon.set_grow_returned (s : MmapAnon TValue) (sys : Sys TValue) (id : TKey)
    (v : TValue) (hge : s.m_size.val ≤ id.val)
    (h : (s.set sys id v).1 = Outcome.returned ()) :
    id.val + 10485760 < 2 ^ 64 ∧
    ValueType.sizeof TValue * (id.val + 10485760) < 2 ^ 64 ∧
    ∃ len cells cells2, s.m_items = Ptr.mapped len cells ∧
      (ValueType.sizeof TValue * s.m_size.val) % 2 ^ 64 ≤ len ∧
      (s.set sys id v).2 = ⟨to_size_t (id.val + 10485760),
        Ptr.mapped (ValueType.sizeof TValue * (id.val + 10485760)) cells2⟩ ∧
      cells2 id.val = v ∧
      (∀ j, j ≠ id.val → s.m_size.val ≤ j → j < id.val + 10485760 → cells2 j = default) ∧
      (∀ j, j < s.m_size.val →
        covers TValue ((ValueType.sizeof TValue * s.m_size.val) % 2 ^ 64) j →
        cells2 j = cells j) := by
  have hpos : 0 < ValueType.sizeof TValue := ValueType.sizeof_pos
  have hid := id.isLt
  have hm := s.m_size.isLt
  unfold MmapAnon.set at h ⊢
  rw [if_pos hge] at h ⊢
  simp only [] at h ⊢
  cases hmr : mremap sys s.m_items (to_size_t (ValueType.sizeof TValue * s.m_size.val)).val
      (to_size_t (ValueType.sizeof TValue *
        (to_size_t (id.val + size_increment.val)).val)).val with
  | nullptr => exact absurd hmr (mremap_ne_nullptr _ _ _ _)
  | MAP_FAILED => rw [hmr] at h; simp at h
  | mapped len1 cells1 =>
    rw [hmr] at h
    simp only [] at h ⊢
    obtain ⟨len, cells, hp, ho, hn, hol, hlen1, hcells1⟩ := mremap_eq_mapped hmr
    cases hpn : placement_new_array (Ptr.mapped len1 cells1) s.m_size.val
        (to_size_t ((to_size_t (id.val + size_increment.val)).val + 2 ^ 64 - s.m_size.val)).val with
    | none => rw [hpn] at h; simp at h
    | some q =>
      rw [hpn] at h
      simp only [] at h ⊢
      obtain ⟨len3, cells3, hp3, hcnt, hq⟩ := placement_new_array_eq_some hpn
      injection hp3 with hl3 hc3
      subst hl3 hc3
      obtain ⟨len4, cells4, hq4, hcov, hres⟩ := assign_item_returned _ _ _ h
      simp only [] at hq4
      rw [hq] at hq4
      injection hq4 with hl4 hc4
      subst hl4
      simp only [to_size_t_val, size_increment_val] at *
      have hB : len1 ≤ ValueType.sizeof TValue * ((id.val + 10485760) % 2 ^ 64) := by
        rw [hlen1]; exact Nat.mod_le _ _
      have hB2 : len1 < 2 ^ 64 := by
        rw [hlen1]; exact Nat.mod_lt _ (by decide)
      have h1 : id.val + 1 ≤ (id.val + 10485760) % 2 ^ 64 := by
        unfold covers at hcov
        exact Nat.le_of_mul_le_mul_left (Nat.le_trans hcov hB) hpos
      have hnowrap : id.val + 10485760 < 2 ^ 64 := by omega
      have hns : (id.val + 10485760) % 2 ^ 64 = id.val + 10485760 := Nat.mod_eq_of_lt hnowrap
      have hcnt2 : ((id.val + 10485760) % 2 ^ 64 + 2 ^ 64 - s.m_size.val) % 2 ^ 64 =
          id.val + 10485760 - s.m_size.val := by omega
      rw [hcnt2] at hcnt
      simp only [hcnt2] at hc4
      rw [hns] at hB hlen1
      have hsum : s.m_size.val + (id.val + 10485760 - s.m_size.val) = id.val + 10485760 := by
        omega
      rw [hsum] at hcnt
      simp only [hsum] at hc4
      have hfull : ValueType.sizeof TValue * (id.val + 10485760) ≤ len1 := by
        rcases hcnt with h0 | h0
        · omega
        · exact h0
      have hlen : len1 = ValueType.sizeof TValue * (id.val + 10485760) := Nat.le_antisymm hB hfull
      refine ⟨hnowrap, by omega, len, cells, fun j => if j = id.val then v else cells4 j,
        hp, hol, ?_, by simp, ?_, ?_⟩
      · rw [hres, hlen]
      · intro j hj hmj hjlt
        simp only [if_neg hj]
        rw [← hc4]
        simp only [if_pos (And.intro hmj hjlt)]
      · intro j hj hc
        have hja : j ≠ id.val := by omega
        simp only [if_neg hja]
        rw [← hc4, hcells1]
        have : ¬ (s.m_size.val ≤ j ∧ j < id.val + 10485760) := by omega
        simp only [if_neg this, if_pos hc]

theorem MmapAnon.slot_mapped (m : size_t) (len : Nat) (cells : Nat → TValue) (j : Nat) :
    (MmapAnon.mk m (Ptr.mapped len cells)).slot j =
      if covers TValue len j then some (cells j) else none := rfl

/-- What a returning `set` call did when the key was within the capacity. -/
theorem MmapAnon.set_within_returned (s : MmapAnon TValue) (sys : Sys TValue) (id : TKey)
    (v : TValue) (hlt : id.val < s.m_size.val)
    (h : (s.set sys id v).1 = Outcome.returned ()) :
    ∃ len cells, s.m_items = Ptr.mapped len cells ∧ covers TValue len id.val ∧
      (s.set sys id v).2 =
        ⟨s.m_size, Ptr.mapped len (fun j => if j = id.val then v else cells j)⟩ := by
  rw [MmapAnon.set_within s sys id v hlt] at h ⊢
  exact MmapAnon.assign_item_returned s id v h

/-- The capacity after a returning `set` call. -/
theorem MmapAnon.set_returned_size (s : MmapAnon TValue) (sys : Sys TValue) (id : TKey)
    (v : TValue) (h : (s.set sys id v).1 = Outcome.returned ()) :
    (s.set sys id v).2.m_size.val =
      if id.val < s.m_size.val then s.m_size.val else id.val + 10485760 := by
  by_cases hlt : id.val < s.m_size.val
  · rw [if_pos hlt, MmapAnon.set_within s sys id v hlt, MmapAnon.assign_item_size]
  · rw [if_neg hlt]
    obtain ⟨hw, -, len, cells, cells2, -, -, hres, -⟩ :=
      MmapAnon.set_grow_returned s sys id v (by omega) h
    rw [hres]
    exact Nat.mod_eq_of_lt hw

/-- After a returning `set(id, v)` the slot at `id` exists, lies below the
capacity and holds `v`. -/
theorem MmapAnon.set_returned_slot_self (s : MmapAnon TValue) (sys : Sys TValue) (id : TKey)
    (v : TValue) (h : (s.set sys id v).1 = Outcome.returned ()) :
    id.val < (s.set sys id v).2.m_size.val ∧ (s.set sys id v).2.slot id.val = some v := by
  have hsize := MmapAnon.set_returned_size s sys id v h
  by_cases hlt : id.val < s.m_size.val
  · obtain ⟨len, cells, -, hcov, hres⟩ := MmapAnon.set_within_returned s sys id v hlt h
    rw [if_pos hlt] at hsize
    refine ⟨by omega, ?_⟩
    rw [hres, MmapAnon.slot_mapped, if_pos hcov]
    simp
  · obtain ⟨-, -, len, cells, cells2, -, -, hres, hv, -⟩ :=
      MmapAnon.set_grow_returned s sys id v (by omega) h
    rw [if_neg hlt] at hsize
    refine ⟨by omega, ?_⟩
    rw [hres, MmapAnon.slot_mapped, if_pos (covers_mul_iff.mpr (by omega)), hv]

/-- A returning `set` call keeps the class invariant. -/
theorem MmapAnon.set_returned_active (s : MmapAnon TValue) (sys : Sys TValue) (id : TKey)
    (v : TValue) (ha : s.Active) (h : (s.set sys id v).1 = Outcome.returned ()) :
    (s.set sys id v).2.Active := by
  obtain ⟨hfit, cells0, hcells0⟩ := ha
  by_cases hlt : id.val < s.m_size.val
  · obtain ⟨len, cells, hp, -, hres⟩ := MmapAnon.set_within_returned s sys id v hlt h
    rw [hres]
    rw [hcells0] at hp
    injection hp with hl hc
    exact ⟨hfit, _, by rw [← hl]⟩
  · obtain ⟨hw, hfit2, len, cells, cells2, -, -, hres, -⟩ :=
      MmapAnon.set_grow_returned s sys id v (by omega) h
    rw [hres]
    have hv : (to_size_t (id.val + 10485760)).val = id.val + 10485760 := Nat.mod_eq_of_lt hw
    exact ⟨by simp only [hv]; exact hfit2, cells2, by simp only [hv]⟩

/-- A returning `set(id, v)` leaves every other slot below the old capacity
as it was. -/
theorem MmapAnon.set_returned_slot_other (s : MmapAnon TValue) (sys : Sys TValue) (id : TKey)
    (v : TValue) (h : (s.set sys id v).1 = Outcome.returned ())
    (j : Nat) (hj : j ≠ id.val) (hjm : j < s.m_size.val) :
    (s.set sys id v).2.slot j = s.slot j := by
  obtain ⟨m, p⟩ := s
  simp only [] at hjm
  by_cases hlt : id.val < m.val
  · obtain ⟨len, cells, hp, -, hres⟩ := MmapAnon.set_within_returned _ sys id v hlt h
    simp only [] at hp
    subst hp
    rw [hres, MmapAnon.slot_mapped, MmapAnon.slot_mapped]
    simp only [if_neg hj]
  · obtain ⟨hw, hfit2, len, cells, cells2, hp, hol, hres, -, -, hold⟩ :=
      MmapAnon.set_grow_returned _ sys id v (by simp only []; omega) h
    simp only [] at hp hol hold
    subst hp
    have hle : ValueType.sizeof TValue * m.val ≤ ValueType.sizeof TValue * (id.val + 10485760) :=
      Nat.mul_le_mul_left _ (by omega)
    have hfit : ValueType.sizeof TValue * m.val % 2 ^ 64 = ValueType.sizeof TValue * m.val :=
      Nat.mod_eq_of_lt (by omega)
    rw [hfit] at hol hold
    have hcov : covers TValue (ValueType.sizeof TValue * m.val) j := covers_mul_iff.mpr hjm
    rw [hres, MmapAnon.slot_mapped, MmapAnon.slot_mapped,
      if_pos (covers_mul_iff.mpr (by omega)), if_pos (covers_mono hcov (Nat.le_refl _) hol),
      hold j hjm hcov]

/-- A returning `set(id, v)` leaves `TValue()` in every slot it added, the
one at `id` apart. -/
theorem MmapAnon.set_returned_slot_added (s : MmapAnon TValue) (sys : Sys TValue) (id : TKey)
    (v : TValue) (h : (s.set sys id v).1 = Outcome.returned ())
    (j : Nat) (hj : j ≠ id.val) (hmj : s.m_size.val ≤ j)
    (hjn : j < (s.set sys id v).2.m_size.val) :
    (s.set sys id v).2.slot j = some default := by
  have hsize := MmapAnon.set_returned_size s sys id v h
  by_cases hlt : id.val < s.m_size.val
  · rw [if_pos hlt] at hsize
    omega
  · rw [if_neg hlt] at hsize
    obtain ⟨-, -, len, cells, cells2, -, -, hres, -, hnew, -⟩ :=
      MmapAnon.set_grow_returned s sys id v (by omega) h
    rw [hres, MmapAnon.slot_mapped, if_pos (covers_mul_iff.mpr (by omega)),
      hnew j hj hmj (by omega)]

/-- What a returning constructor built. -/
theorem MmapAnon.construct_returned (sys : Sys TValue) (s : MmapAnon TValue)
    (h : construct sys = Outcome.returned s) :
    s.m_size = size_increment ∧ ValueType.sizeof TValue * 10485760 < 2 ^ 64 ∧
      ∃ cells, s.m_items = Ptr.mapped (ValueType.sizeof TValue * 10485760) cells ∧
        ∀ j, j < 10485760 → cells j = default := by
  unfold construct at h
  simp only [to_size_t_val, size_increment_val] at h
  unfold mmap at h
  by_cases hc : sys.succeeds = true ∧ ValueType.sizeof TValue * 10485760 % 2 ^ 64 ≠ 0
  · rw [if_pos hc] at h
    simp only [] at h
    cases hpn : placement_new_array
        (Ptr.mapped (ValueType.sizeof TValue * 10485760 % 2 ^ 64) (fun _ => sys.fill)) 0
        10485760 with
    | none => rw [hpn] at h; simp at h
    | some q =>
      rw [hpn] at h
      simp only [] at h
      injection h with h
      obtain ⟨len, cells, hp, hcnt, hq⟩ := placement_new_array_eq_some hpn
      injection hp with hl hcl
      subst hl hcl
      have hle : ValueType.sizeof TValue * 10485760 % 2 ^ 64 ≤
          ValueType.sizeof TValue * 10485760 := Nat.mod_le _ _
      have hlt : ValueType.sizeof TValue * 10485760 % 2 ^ 64 < 2 ^ 64 :=
        Nat.mod_lt _ (by decide)
      have hfull : ValueType.sizeof TValue * 10485760 ≤
          ValueType.sizeof TValue * 10485760 % 2 ^ 64 := by
        rcases hcnt with h0 | h0
        · omega
        · simpa using h0
      have heq : ValueType.sizeof TValue * 10485760 % 2 ^ 64 =
          ValueType.sizeof TValue * 10485760 := Nat.le_antisymm hle hfull
      subst h
      refine ⟨rfl, by omega, _, by rw [hq, heq], ?_⟩
      intro j hj
      have : 0 ≤ j ∧ j < 0 + 10485760 := by omega
      simp only [if_pos this]
  · rw [if_neg hc] at h
    simp at h

/-- A returning constructor establishes the class invariant. -/
theorem MmapAnon.construct_active (sys : Sys TValue) (s : MmapAnon TValue)
    (h : construct sys = Outcome.returned s) : s.Active := by
  obtain ⟨hm, hfit, cells, hp, -⟩ := MmapAnon.construct_returned sys s h
  have hv : s.m_size.val = 10485760 := by rw [hm]; rfl
  exact ⟨by rw [hv]; exact hfit, cells, by rw [hv]; exact hp⟩

/-- On a live instance every offset below the capacity has a slot. -/
theorem MmapAnon.Active.slot_isSome (s : MmapAnon TValue) (ha : s.Active) (j : Nat)
    (hj : j < s.m_size.val) : ∃ x, s.slot j = some x := by
  obtain ⟨-, cells, hp⟩ := ha
  obtain ⟨m, p⟩ := s
  simp only [] at hp hj
  subst hp
  exact ⟨cells j, by rw [MmapAnon.slot_mapped, if_pos (covers_mul_iff.mpr hj)]⟩

section Get

variable [DecidableEq TValue]

theorem MmapAnon.get_beyond (s : MmapAnon TValue) (id : TKey) (h : s.m_size.val ≤ id.val) :
    s.get id = (Outcome.threw Exception.out_of_range, s) := by
  unfold MmapAnon.get
  rw [if_pos h]

theorem MmapAnon.get_slot (s : MmapAnon TValue) (id : TKey) (h : id.val < s.m_size.val) :
    s.get id =
      match s.slot id.val with
      | none => (Outcome.undefined, s)
      | some x =>
        if x = default then (Outcome.threw Exception.out_of_range, s)
        else (Outcome.returned x, s) := by
  unfold MmapAnon.get MmapAnon.slot
  rw [if_neg (by omega)]

theorem MmapAnon.get_state (s : MmapAnon TValue) (id : TKey) : (s.get id).2 = s := by
  unfold MmapAnon.get
  split
  · rfl
  · split
    · rfl
    · split <;> rfl

end Get

theorem MmapAnon.run_cons_eq_some {s t : MmapAnon TValue} {c : SetCall TValue}
    {cs : List (SetCall TValue)} (h : run s (c :: cs) = some t) :
    (s.set c.sys c.id c.value).1 = Outcome.returned () ∧
      run (s.set c.sys c.id c.value).2 cs = some t := by
  cases hr : s.set c.sys c.id c.value with
  | mk o t1 =>
    cases o with
    | returned u => simpa [run, hr] using h
    | threw e => simp [run, hr] at h
    | undefined => simp [run, hr] at h

theorem MmapAnon.reach_eq_some {sys : Sys TValue} {calls : List (SetCall TValue)}
    {s : MmapAnon TValue} (h : reach sys calls = some s) :
    ∃ s0, construct sys = Outcome.returned s0 ∧ run s0 calls = some s := by
  unfold reach at h
  cases hc : construct sys with
  | returned s0 => rw [hc] at h; exact ⟨s0, rfl, h⟩
  | threw e => rw [hc] at h; simp at h
  | undefined => rw [hc] at h; simp at h

/-- A run of returning `set` calls keeps the class invariant. -/
theorem MmapAnon.run_active (calls : List (SetCall TValue)) (s t : MmapAnon TValue)
    (ha : s.Active) (h : run s calls = some t) : t.Active := by
  induction calls generalizing s with
  | nil =>
    simp only [run, Option.some.injEq] at h
    exact h ▸ ha
  | cons c cs ih =>
    obtain ⟨hr, hrest⟩ := MmapAnon.run_cons_eq_some h
    exact ih _ (MmapAnon.set_returned_active s c.sys c.id c.value ha hr) hrest

/-- Every state reached from construction satisfies the class invariant. -/
theorem MmapAnon.reach_active {sys : Sys TValue} {calls : List (SetCall TValue)}
    {s : MmapAnon TValue} (h : reach sys calls = some s) : s.Active := by
  obtain ⟨s0, hc, hr⟩ := MmapAnon.reach_eq_some h
  exact MmapAnon.run_active calls s0 s (MmapAnon.construct_active sys s0 hc) hr

/-- Over a run of returning `set` calls the capacity does not shrink and
ends above every key of the run. -/
theorem MmapAnon.run_size (calls : List (SetCall TValue)) (s t : MmapAnon TValue)
    (h : run s calls = some t) :
    s.m_size.val ≤ t.m_size.val ∧ ∀ c ∈ calls, c.id.val + 1 ≤ t.m_size.val := by
  induction calls generalizing s with
  | nil =>
    simp only [run, Option.some.injEq] at h
    subst h
    exact ⟨Nat.le_refl _, by simp⟩
  | cons c cs ih =>
    obtain ⟨hr, hrest⟩ := MmapAnon.run_cons_eq_some h
    obtain ⟨hmono, hall⟩ := ih _ hrest
    have hsize := MmapAnon.set_returned_size s c.sys c.id c.value hr
    have hself := (MmapAnon.set_returned_slot_self s c.sys c.id c.value hr).1
    refine ⟨?_, ?_⟩
    · split at hsize <;> omega
    · intro d hd
      rcases List.mem_cons.mp hd with hdc | hdc
      · subst hdc
        omega
      · exact hall d hdc

/-- Over a run of returning `set` calls, a slot that holds `TValue()` (or
lies beyond the capacity) and is the key of no call holds `TValue()` at the
end, if it lies below the final capacity. -/
theorem MmapAnon.run_unset (calls : List (SetCall TValue)) (s t : MmapAnon TValue) (j : Nat)
    (hs : j < s.m_size.val → s.slot j = some default)
    (hk : ∀ c ∈ calls, c.id.val ≠ j) (h : run s calls = some t) (hj : j < t.m_size.val) :
    t.slot j = some default := by
  induction calls generalizing s with
  | nil =>
    simp only [run, Option.some.injEq] at h
    subst h
    exact hs hj
  | cons c cs ih =>
    obtain ⟨hr, hrest⟩ := MmapAnon.run_cons_eq_some h
    have hne : j ≠ c.id.val := fun e => hk c (List.mem_cons_self c cs) e.symm
    refine ih _ ?_ (fun d hd => hk d (List.mem_cons_of_mem c hd)) hrest
    intro hj1
    by_cases hjm : j < s.m_size.val
    · rw [MmapAnon.set_returned_slot_other s c.sys c.id c.value hr j hne hjm]
      exact hs hjm
    · exact MmapAnon.set_returned_slot_added s c.sys c.id c.value hr j hne (by omega) hj1

/-- Over a run of returning `set` calls the capacity stays what it was or
becomes `id + size_increment` for the key of one of the calls. -/
theorem MmapAnon.run_size_form (calls : List (SetCall TValue)) (s t : MmapAnon TValue)
    (h : run s calls = some t) :
    t.m_size.val = s.m_size.val ∨ ∃ c ∈ calls, t.m_size.val = c.id.val + 10485760 := by
  induction calls generalizing s with
  | nil =>
    simp only [run, Option.some.injEq] at h
    subst h
    exact Or.inl rfl
  | cons c cs ih =>
    obtain ⟨hr, hrest⟩ := MmapAnon.run_cons_eq_some h
    have hsize := MmapAnon.set_returned_size s c.sys c.id c.value hr
    rcases ih _ hrest with h1 | ⟨d, hd, h1⟩
    · by_cases hlt : c.id.val < s.m_size.val
      · rw [if_pos hlt] at hsize
        exact Or.inl (by omega)
      · rw [if_neg hlt] at hsize
        exact Or.inr ⟨c, List.mem_cons_self c cs, by omega⟩
    · exact Or.inr ⟨d, List.mem_cons_of_mem c hd, h1⟩

/-- The growth branch with a kernel that cannot satisfy `mremap`: the call
throws `std::bad_alloc`, the capacity is kept and `m_items` is `MAP_FAILED`. -/
theorem MmapAnon.set_growth_failed (s : MmapAnon TValue) (sys : Sys TValue) (id : TKey)
    (v : TValue) (hge : s.m_size.val ≤ id.val) (hsys : sys.succeeds = false) :
    s.set sys id v =
      (Outcome.threw Exception.bad_alloc, ⟨s.m_size, Ptr.MAP_FAILED⟩) := by
  have hmr : ∀ o n, mremap sys s.m_items o n = Ptr.MAP_FAILED := by
    intro o n
    unfold mremap
    cases s.m_items with
    | nullptr => rfl
    | MAP_FAILED => rfl
    | mapped len cells => simp [hsys]
  unfold MmapAnon.set
  rw [if_pos hge]
  simp only [hmr]

/-- A returning `set(id, v)`, slot by slot: the slot at `id` holds `v`; every
other slot is as before when the call did not grow the region or the slot
lies below the old capacity; the added slots hold `TValue()`; and there is no
slot at or beyond the new capacity. -/
theorem MmapAnon.set_returned_slot (s : MmapAnon TValue) (sys : Sys TValue) (id : TKey)
    (v : TValue) (h : (s.set sys id v).1 = Outcome.returned ()) (j : Nat) :
    (s.set sys id v).2.slot j =
      if j = id.val then some v
      else if id.val < s.m_size.val ∨ j < s.m_size.val then s.slot j
      else if j < id.val + 10485760 then some default
      else none := by
  by_cases hj : j = id.val
  · rw [if_pos hj, hj]
    exact (MmapAnon.set_returned_slot_self s sys id v h).2
  rw [if_neg hj]
  by_cases hlt : id.val < s.m_size.val
  · rw [if_pos (Or.inl hlt)]
    obtain ⟨len, cells, hp, -, hres⟩ := MmapAnon.set_within_returned s sys id v hlt h
    obtain ⟨m, p⟩ := s
    simp only [] at hp
    subst hp
    rw [hres, MmapAnon.slot_mapped, MmapAnon.slot_mapped]
    simp only [if_neg hj]
  by_cases hjm : j < s.m_size.val
  · rw [if_pos (Or.inr hjm)]
    exact MmapAnon.set_returned_slot_other s sys id v h j hj hjm
  rw [if_neg (by omega)]
  have hsize := MmapAnon.set_returned_size s sys id v h
  rw [if_neg hlt] at hsize
  by_cases hjn : j < id.val + 10485760
  · rw [if_pos hjn]
    exact MmapAnon.set_returned_slot_added s sys id v h j hj (by omega) (by omega)
  · rw [if_neg hjn]
    obtain ⟨-, -, len, cells, cells2, -, -, hres, -⟩ :=
      MmapAnon.set_grow_returned s sys id v (by omega) h
    rw [hres, MmapAnon.slot_mapped, if_neg (fun hc => hjn (covers_mul_iff.mp hc))]

theorem MmapAnon.assign_item_outcome (s : MmapAnon TValue) (id : TKey) (v1 v2 : TValue) :
    (assign_item s id v1).1 = (assign_item s id v2).1 := by
  obtain ⟨m, p⟩ := s
  cases p with
  | nullptr => rfl
  | MAP_FAILED => rfl
  | mapped len cells =>
    by_cases hc : covers TValue len id.val
    · simp [assign_item, Ptr.store, hc]
    · simp [assign_item, Ptr.store, hc]

theorem MmapAnon.assign_item_not_threw (s : MmapAnon TValue) (id : TKey) (v : TValue)
    (e : Exception) : (assign_item s id v).1 ≠ Outcome.threw e := by
  unfold assign_item
  cases s.m_items.store id.val v <;> simp

/-- Whether `set(id, v)` returns, throws or is undefined does not depend on `v`. -/
theorem MmapAnon.set_outcome_value (s : MmapAnon TValue) (sys : Sys TValue) (id : TKey)
    (v1 v2 : TValue) : (s.set sys id v1).1 = (s.set sys id v2).1 := by
  unfold MmapAnon.set
  split
  · simp only []
    split
    · rfl
    · split
      · rfl
      · exact MmapAnon.assign_item_outcome _ id v1 v2
  · exact MmapAnon.assign_item_outcome s id v1 v2

/-- A `set` call that throws leaves the capacity as it was. -/
theorem MmapAnon.set_threw_size (s : MmapAnon TValue) (sys : Sys TValue) (id : TKey)
    (v : TValue) (e : Exception) (h : (s.set sys id v).1 = Outcome.threw e) :
    (s.set sys id v).2.m_size = s.m_size := by
  unfold MmapAnon.set at h ⊢
  split at h
  · rename_i hge
    rw [if_pos hge]
    simp only [] at h ⊢
    split at h
    · rfl
    · split at h
      · simp at h
      · exact absurd h (MmapAnon.assign_item_not_threw _ id v e)
  · exact absurd h (MmapAnon.assign_item_not_threw s id v e)

/-- The outcome of `get(id)` from the capacity and the slot at `id`. -/
theorem MmapAnon.get_outcome [DecidableEq TValue] (s : MmapAnon TValue) (id : TKey) :
    (s.get id).1 =
      if s.m_size.val ≤ id.val then Outcome.threw Exception.out_of_range
      else
        match s.slot id.val with
        | none => Outcome.undefined
        | some x =>
          if x = default then Outcome.threw Exception.out_of_range else Outcome.returned x := by
  by_cases hge : s.m_size.val ≤ id.val
  · rw [MmapAnon.get_beyond s id hge, if_pos hge]
  · rw [MmapAnon.get_slot s id (by omega), if_neg hge]
    cases s.slot id.val with
    | none => rfl
    | some x => by_cases hx : x = default <;> simp [hx]

/-- On a live, non-empty instance the growth branch returns when the kernel
extends the region and the new byte count fits `size_t`: no access of the
branch leaves the region. -/
theorem MmapAnon.set_grow_returns (s : MmapAnon TValue) (sys : Sys TValue) (id : TKey)
    (v : TValue) (ha : s.Active) (hpos : 0 < s.m_size.val) (hge : s.m_size.val ≤ id.val)
    (hsys : sys.succeeds = true)
    (hfit : ValueType.sizeof TValue * (id.val + 10485760) < 2 ^ 64) :
    (s.set sys id v).1 = Outcome.returned () := by
  obtain ⟨hfit0, cells, hp⟩ := ha
  obtain ⟨m, p⟩ := s
  simp only [] at hfit0 hp hpos hge
  subst hp
  have hsz : 0 < ValueType.sizeof TValue := ValueType.sizeof_pos
  have hle : id.val + 10485760 ≤ ValueType.sizeof TValue * (id.val + 10485760) :=
    Nat.le_mul_of_pos_left _ hsz
  have e1 : (id.val + 10485760) % 2 ^ 64 = id.val + 10485760 := Nat.mod_eq_of_lt (by omega)
  have e2 : ValueType.sizeof TValue * (id.val + 10485760) % 2 ^ 64 =
      ValueType.sizeof TValue * (id.val + 10485760) := Nat.mod_eq_of_lt hfit
  have e3 : ValueType.sizeof TValue * m.val % 2 ^ 64 = ValueType.sizeof TValue * m.val :=
    Nat.mod_eq_of_lt hfit0
  have e4 : (id.val + 10485760 + 2 ^ 64 - m.val) % 2 ^ 64 = id.val + 10485760 - m.val := by
    omega
  have e5 : m.val + (id.val + 10485760 - m.val) = id.val + 10485760 := by omega
  have n1 : ValueType.sizeof TValue * m.val ≠ 0 := Nat.pos_iff_ne_zero.mp (Nat.mul_pos hsz hpos)
  have n2 : ValueType.sizeof TValue * (id.val + 10485760) ≠ 0 :=
    Nat.pos_iff_ne_zero.mp (Nat.mul_pos hsz (by omega))
  unfold MmapAnon.set
  rw [if_pos hge]
  simp only [to_size_t_val, size_increment_val, e1, e2, e3, e4, mremap]
  rw [if_pos ⟨hsys, n1, n2, Nat.le_refl _⟩]
  simp only [placement_new_array, e5]
  rw [if_pos (Or.inr (Nat.le_refl _))]
  simp only [assign_item, Ptr.store]
  rw [if_pos (covers_mul_iff.mpr (by omega))]

omit [ValueType TValue] in
theorem MmapAnon.last_set_mem (calls : List (SetCall TValue)) (id : TKey) (v : TValue)
    (h : last_set calls id = some v) : ∃ c ∈ calls, c.id = id ∧ c.value = v := by
  induction calls with
  | nil => simp [last_set] at h
  | cons c cs ih =>
    unfold last_set at h
    cases hl : last_set cs id with
    | some x =>
      rw [hl] at h
      simp only [Option.some.injEq] at h
      obtain ⟨d, hd, hid, hv⟩ := ih (h ▸ hl)
      exact ⟨d, List.mem_cons_of_mem c hd, hid, hv⟩
    | none =>
      rw [hl] at h
      simp only [] at h
      by_cases hc : c.id = id
      · rw [if_pos hc] at h
        simp only [Option.some.injEq] at h
        exact ⟨c, List.mem_cons_self c cs, hc, h⟩
      · rw [if_neg hc] at h
        simp at h

omit [ValueType TValue] in
theorem MmapAnon.last_set_none (calls : List (SetCall TValue)) (id : TKey)
    (h : last_set calls id = none) : ∀ c ∈ calls, c.id ≠ id := by
  induction calls with
  | nil => simp
  | cons c cs ih =>
    unfold last_set at h
    cases hl : last_set cs id with
    | some x => rw [hl] at h; simp at h
    | none =>
      rw [hl] at h
      simp only [] at h
      by_cases hc : c.id = id
      · rw [if_pos hc] at h
        simp at h
      · intro d hd
        rcases List.mem_cons.mp hd with hdc | hdc
        · rw [hdc]; exact hc
        · exact ih hl d hdc

/-- After a run of returning `set` calls, a slot below the final capacity
holds the value of the last call with its key; when no call has its key it
is as at the start of the run, or `TValue()` when it was added by the run. -/
theorem MmapAnon.run_slot (calls : List (SetCall TValue)) (s t : MmapAnon TValue) (id : TKey)
    (h : run s calls = some t) (hid : id.val < t.m_size.val) :
    t.slot id.val =
      match last_set calls id with
      | some v => some v
      | none => if id.val < s.m_size.val then s.slot id.val else some default := by
  induction calls generalizing s with
  | nil =>
    simp only [run, Option.some.injEq] at h
    subst h
    simp only [last_set, if_pos hid]
  | cons c cs ih =>
    obtain ⟨hr, hrest⟩ := MmapAnon.run_cons_eq_some h
    have hih := ih _ hrest
    have hsize := MmapAnon.set_returned_size s c.sys c.id c.value hr
    have hself := MmapAnon.set_returned_slot_self s c.sys c.id c.value hr
    have hslot := MmapAnon.set_returned_slot s c.sys c.id c.value hr id.val
    unfold last_set
    cases hl : last_set cs id with
    | some x =>
      rw [hl] at hih
      exact hih
    | none =>
      rw [hl] at hih
      simp only [] at hih ⊢
      by_cases hc : c.id = id
      · rw [if_pos hc]
        subst hc
        rw [hih, if_pos hself.1, hself.2]
      · rw [if_neg hc]
        have hne : id.val ≠ c.id.val := fun e => hc (Fin.ext e.symm)
        rw [if_neg hne] at hslot
        rw [hih]
        by_cases hlt : id.val < s.m_size.val
        · rw [if_pos hlt]
          rw [if_pos (Or.inr hlt)] at hslot
          have : id.val < (s.set c.sys c.id c.value).2.m_size.val := by
            split at hsize <;> omega
          rw [if_pos this, hslot]
        · rw [if_neg hlt]
          by_cases hlt2 : id.val < (s.set c.sys c.id c.value).2.m_size.val
          · rw [if_pos hlt2, hslot]
            have hg : ¬ c.id.val < s.m_size.val := by
              intro hcl
              rw [if_pos hcl] at hsize
              omega
            rw [if_neg hg] at hsize
            rw [if_neg (by omega), if_pos (by omega)]
          · rw [if_neg hlt2]

omit [ValueType TValue] in
theorem MmapAnon.le_max_id (calls : List (SetCall TValue)) :
    ∀ c ∈ calls, c.id.val ≤ max_id calls := by
  induction calls with
  | nil => simp
  | cons c cs ih =>
    intro d hd
    unfold max_id
    rcases List.mem_cons.mp hd with hdc | hdc
    · rw [hdc]; exact Nat.le_max_left _ _
    · exact Nat.le_trans (ih d hdc) (Nat.le_max_right _ _)

/-- The assignment returns when the slot at `id` exists. -/
theorem MmapAnon.assign_item_returns (s : MmapAnon TValue) (id : TKey) (v x : TValue)
    (h : s.slot id.val = some x) : (assign_item s id v).1 = Outcome.returned () := by
  obtain ⟨m, p⟩ := s
  cases p with
  | nullptr => simp [MmapAnon.slot, Ptr.load] at h
  | MAP_FAILED => simp [MmapAnon.slot, Ptr.load] at h
  | mapped len cells =>
    by_cases hc : covers TValue len id.val
    · simp [assign_item, Ptr.store, hc]
    · simp [MmapAnon.slot, Ptr.load, hc] at h

/-- On a live instance `get` is never undefined: it returns a value or
throws `std::out_of_range`. -/
theorem MmapAnon.Active.get_defined [DecidableEq TValue] (s : MmapAnon TValue) (ha : s.Active)
    (id : TKey) :
    (∃ x, (s.get id).1 = Outcome.returned x) ∨
      (s.get id).1 = Outcome.threw Exception.out_of_range := by
  rw [MmapAnon.get_outcome]
  by_cases hge : s.m_size.val ≤ id.val
  · rw [if_pos hge]
    exact Or.inr rfl
  · rw [if_neg hge]
    obtain ⟨x, hx⟩ := MmapAnon.Active.slot_isSome s ha id.val (by omega)
    rw [hx]
    by_cases hd : x = default
    · simp [hd]
    · simp [hd]

end Lemmas

section Claims

variable {TValue : Type} [ValueType TValue]

/-- C1 (round trip): in every state, so in every state reached from
construction by `set` calls, for every key `id` and every value `v` other
than `TValue()`: once `set(id, v)` has returned, `get(id)` returns `v` and
throws nothing. -/
theorem round_trip [DecidableEq TValue] (s : MmapAnon TValue) (sys : Sys TValue) (id : TKey)
    (v : TValue) (hv : v ≠ default) (hset : (s.set sys id v).1 = Outcome.returned ()) :
    ((s.set sys id v).2.get id).1 = Outcome.returned v := by
  obtain ⟨hlt, hslot⟩ := MmapAnon.set_returned_slot_self s sys id v hset
  rw [MmapAnon.get_slot _ _ hlt, hslot]
  simp only [if_neg hv]

/-- Witness of `round_trip`: after construction and `set(2, 7)`, the call
`set(20000000, 3)` grows the region and `get(20000000)` returns `3`. -/
theorem round_trip_witness :
    ∃ s : MmapAnon size_t,
      reach Examples.kernel_ok [⟨Examples.kernel_ok, Examples.key 2, 7⟩] = some s ∧
      ((s.set Examples.kernel_ok (Examples.key 20000000) 3).2.get
        (Examples.key 20000000)).1 = Outcome.returned 3 :=
  ⟨_, rfl, round_trip _ Examples.kernel_ok (Examples.key 20000000) 3 (by decide) (by decide)⟩

/-- C2 (`get` characterised): in every state and for every key `id`,
`get(id)` throws `std::out_of_range` exactly when `id >= size()` or the slot
at offset `id` holds `TValue()`; when `id < size()` and the slot holds
another value, `get(id)` returns that value; and for `id >= size()` it
always throws `std::out_of_range`. -/
theorem get_characterised [DecidableEq TValue] (s : MmapAnon TValue) (id : TKey) :
    ((s.get id).1 = Outcome.threw Exception.out_of_range ↔
      (s.size.val ≤ id.val ∨ s.slot id.val = some default)) ∧
    (∀ x, id.val < s.size.val → s.slot id.val = some x → x ≠ default →
      (s.get id).1 = Outcome.returned x) ∧
    (s.size.val ≤ id.val → (s.get id).1 = Outcome.threw Exception.out_of_range) := by
  unfold MmapAnon.size
  refine ⟨?_, ?_, ?_⟩
  · by_cases hge : s.m_size.val ≤ id.val
    · rw [MmapAnon.get_beyond s id hge]
      simp [hge]
    · rw [MmapAnon.get_slot s id (by omega)]
      cases hs : s.slot id.val with
      | none => simp [hge]
      | some x =>
        by_cases hx : x = default
        · simp [hx]
        · simp [hx, hge]
  · intro x hlt hs hx
    rw [MmapAnon.get_slot s id hlt, hs]
    simp only [if_neg hx]
  · intro hge
    rw [MmapAnon.get_beyond s id hge]

/-- Witness of `get_characterised`: in the state after construction and
`set(2, 7)`, `get(2)` returns `7`, and `get` throws `std::out_of_range` at
the unset key `0` and at the key `10485760` beyond the capacity. -/
theorem get_characterised_witness :
    ∃ s : MmapAnon size_t,
      reach Examples.kernel_ok [⟨Examples.kernel_ok, Examples.key 2, 7⟩] = some s ∧
      (s.get (Examples.key 2)).1 = Outcome.returned 7 ∧
      (s.get (Examples.key 0)).1 = Outcome.threw Exception.out_of_range ∧
      (s.get (Examples.key 10485760)).1 = Outcome.threw Exception.out_of_range :=
  ⟨_, rfl,
    (get_characterised _ (Examples.key 2)).2.1 7 (by decide) rfl (by decide),
    (get_characterised _ (Examples.key 0)).1.mpr (Or.inr rfl),
    (get_characterised _ (Examples.key 10485760)).2.2 (by decide)⟩

/-- C3 (unset read fails): in every state reached from construction by
returning `set` calls, every offset below `size()` that was the key of none
of those calls holds `TValue()`, whether the slot dates from construction or
from a growth, and `get` throws `std::out_of_range` there. -/
theorem unset_read_fails [DecidableEq TValue] (sys0 : Sys TValue) (calls : List (SetCall TValue))
    (s : MmapAnon TValue) (id : TKey)
    (hreach : reach sys0 calls = some s) (hid : id.val < s.size.val)
    (hkey : ∀ c ∈ calls, c.id ≠ id) :
    s.slot id.val = some default ∧ (s.get id).1 = Outcome.threw Exception.out_of_range := by
  unfold MmapAnon.size at hid
  obtain ⟨s0, hc, hr⟩ := MmapAnon.reach_eq_some hreach
  obtain ⟨hm, -, cells, hp, hcells⟩ := MmapAnon.construct_returned sys0 s0 hc
  have hv : s0.m_size.val = 10485760 := by rw [hm]; rfl
  have hslot : s.slot id.val = some default := by
    refine MmapAnon.run_unset calls s0 s id.val ?_
      (fun c hcm e => hkey c hcm (Fin.ext e)) hr hid
    intro hj
    obtain ⟨m0, p0⟩ := s0
    simp only [] at hp hv hj
    subst hp
    rw [MmapAnon.slot_mapped, if_pos (covers_mul_iff.mpr (by omega)), hcells _ (by omega)]
  refine ⟨hslot, ?_⟩
  rw [MmapAnon.get_slot s id hid, hslot]
  simp

/-- Witness of `unset_read_fails`: after construction, `set(2, 7)` and the
growing `set(20000000, 3)`, the key `15000000`, which lies in the part added
by the growth, was never set and `get` throws `std::out_of_range` there. -/
theorem unset_read_fails_witness :
    ∃ s : MmapAnon size_t,
      reach Examples.kernel_ok [⟨Examples.kernel_ok, Examples.key 2, 7⟩,
        ⟨Examples.kernel_ok, Examples.key 20000000, 3⟩] = some s ∧
      s.slot 15000000 = some 0 ∧
      (s.get (Examples.key 15000000)).1 = Outcome.threw Exception.out_of_range :=
  ⟨_, rfl, unset_read_fails Examples.kernel_ok [⟨Examples.kernel_ok, Examples.key 2, 7⟩,
    ⟨Examples.kernel_ok, Examples.key 20000000, 3⟩] _ (Examples.key 15000000) rfl
    (by decide) (by decide)⟩

/-- C4 (growth monotonicity): when a sequence `pre` of returning `set` calls
on a fresh instance is followed by a returning call `c`, then `size()` after
`c` is at least `size()` before it, and at least `id + 1` for the key `id`
of `c` and of every earlier call. -/
theorem growth_monotone (sys0 : Sys TValue) (pre : List (SetCall TValue)) (c : SetCall TValue)
    (s : MmapAnon TValue) (hreach : reach sys0 pre = some s)
    (hset : (s.set c.sys c.id c.value).1 = Outcome.returned ()) :
    s.size.val ≤ (s.set c.sys c.id c.value).2.size.val ∧
      ∀ d ∈ pre ++ [c], d.id.val + 1 ≤ (s.set c.sys c.id c.value).2.size.val := by
  unfold MmapAnon.size
  obtain ⟨s0, -, hr⟩ := MmapAnon.reach_eq_some hreach
  obtain ⟨-, hall⟩ := MmapAnon.run_size pre s0 s hr
  have hsize := MmapAnon.set_returned_size s c.sys c.id c.value hset
  have hself := (MmapAnon.set_returned_slot_self s c.sys c.id c.value hset).1
  have hmono : s.m_size.val ≤ (s.set c.sys c.id c.value).2.m_size.val := by
    split at hsize <;> omega
  refine ⟨hmono, ?_⟩
  intro d hd
  rcases List.mem_append.mp hd with hd1 | hd1
  · exact Nat.le_trans (hall d hd1) hmono
  · rw [List.mem_singleton] at hd1
    subst hd1
    omega

/-- Witness of `growth_monotone`: after construction and `set(20000000, 3)`
(capacity 30485760), the call `set(2, 7)` leaves the capacity at 30485760,
above both keys. -/
theorem growth_monotone_witness :
    ∃ s : MmapAnon size_t,
      reach Examples.kernel_ok [⟨Examples.kernel_ok, Examples.key 20000000, 3⟩] = some s ∧
      s.size.val = 30485760 ∧
      (s.size.val ≤ (s.set Examples.kernel_ok (Examples.key 2) 7).2.size.val ∧
        ∀ d ∈ [⟨Examples.kernel_ok, Examples.key 20000000, 3⟩] ++
            [(⟨Examples.kernel_ok, Examples.key 2, 7⟩ : SetCall size_t)],
          d.id.val + 1 ≤ (s.set Examples.kernel_ok (Examples.key 2) 7).2.size.val) :=
  ⟨_, rfl, rfl, growth_monotone Examples.kernel_ok
    [⟨Examples.kernel_ok, Examples.key 20000000, 3⟩] ⟨Examples.kernel_ok, Examples.key 2, 7⟩ _
    rfl (by decide)⟩

/-- C5 (growth policy): in every state and for every key `id`, a returning
`set(id, v)` leaves `size()` unchanged when `id < size()`, and otherwise
makes `size()` exactly `id + size_increment`. -/
theorem growth_policy (s : MmapAnon TValue) (sys : Sys TValue) (id : TKey) (v : TValue)
    (hset : (s.set sys id v).1 = Outcome.returned ()) :
    (id.val < s.size.val → (s.set sys id v).2.size = s.size) ∧
    (¬ id.val < s.size.val →
      (s.set sys id v).2.size.val = id.val + size_increment.val) := by
  unfold MmapAnon.size
  have hsize := MmapAnon.set_returned_size s sys id v hset
  refine ⟨fun hlt => ?_, fun hge => ?_⟩
  · rw [if_pos hlt] at hsize
    exact Fin.ext hsize
  · rw [if_neg hge] at hsize
    rw [hsize, size_increment_val]

/-- Witness of `growth_policy`: on a fresh instance (capacity 10485760),
`set(2, 7)` keeps the capacity and `set(20000000, 3)` makes it
`20000000 + 10485760`. -/
theorem growth_policy_witness :
    ∃ s : MmapAnon size_t, construct Examples.kernel_ok = Outcome.returned s ∧
      (s.set Examples.kernel_ok (Examples.key 2) 7).2.size = s.size ∧
      (s.set Examples.kernel_ok (Examples.key 20000000) 3).2.size.val = 20000000 + 10485760 :=
  ⟨_, rfl,
    (growth_policy _ Examples.kernel_ok (Examples.key 2) 7 (by decide)).1 (by decide),
    (growth_policy _ Examples.kernel_ok (Examples.key 20000000) 3 (by decide)).2 (by decide)⟩

/-- C6 (slot preservation): in every state, for every key `id`, value `v`
and other offset `j` below the old `size()`, a returning `set(id, v)`,
growing or not, leaves slot `j` as it was, and `get(j)` has the same outcome
as before the call. -/
theorem slot_preserved [DecidableEq TValue] (s : MmapAnon TValue) (sys : Sys TValue) (id : TKey)
    (v : TValue) (j : TKey) (hset : (s.set sys id v).1 = Outcome.returned ())
    (hj : j ≠ id) (hjs : j.val < s.size.val) :
    (s.set sys id v).2.slot j.val = s.slot j.val ∧
      ((s.set sys id v).2.get j).1 = (s.get j).1 := by
  unfold MmapAnon.size at hjs
  have hne : j.val ≠ id.val := fun e => hj (Fin.ext e)
  have hslot := MmapAnon.set_returned_slot_other s sys id v hset j.val hne hjs
  have hsize := MmapAnon.set_returned_size s sys id v hset
  have hjs2 : j.val < (s.set sys id v).2.m_size.val := by
    split at hsize <;> omega
  refine ⟨hslot, ?_⟩
  rw [MmapAnon.get_slot _ j hjs2, MmapAnon.get_slot s j hjs, hslot]
  cases s.slot j.val with
  | none => rfl
  | some x => by_cases hx : x = default <;> simp [hx]

/-- Witness of `slot_preserved`: after construction and `set(2, 7)`, the
growing call `set(20000000, 3)` keeps `7` in slot `2` and `get(2)` still
returns `7`. -/
theorem slot_preserved_witness :
    ∃ s : MmapAnon size_t,
      reach Examples.kernel_ok [⟨Examples.kernel_ok, Examples.key 2, 7⟩] = some s ∧
      (s.set Examples.kernel_ok (Examples.key 20000000) 3).2.slot 2 = some 7 ∧
      ((s.set Examples.kernel_ok (Examples.key 20000000) 3).2.get (Examples.key 2)).1 =
        Outcome.returned 7 :=
  ⟨_, rfl, slot_preserved _ Examples.kernel_ok (Examples.key 20000000) 3 (Examples.key 2)
    (by decide) (by decide) (by decide)⟩

/-- C7 (failed growth): the code at a failing extension.  After construction
and `set(2, 7)`, `get(2)` returns `7`.  When `mremap` then cannot be
satisfied, `set(10485760, 9)` throws `std::bad_alloc` and keeps `m_size`,
but `m_items` has been overwritten with `MAP_FAILED`: the region handle is
not the one before the call, and `get(2)` is now a read through
`MAP_FAILED`, undefined behaviour. -/
theorem failed_growth_loses_region :
    ∃ s : MmapAnon size_t,
      reach Examples.kernel_ok [⟨Examples.kernel_ok, Examples.key 2, 7⟩] = some s ∧
      (s.get (Examples.key 2)).1 = Outcome.returned 7 ∧
      s.set Examples.kernel_full (Examples.key 10485760) 9 =
        (Outcome.threw Exception.bad_alloc, ⟨s.m_size, Ptr.MAP_FAILED⟩) ∧
      (s.set Examples.kernel_full (Examples.key 10485760) 9).2.m_items ≠ s.m_items ∧
      ((s.set Examples.kernel_full (Examples.key 10485760) 9).2.get (Examples.key 2)).1 =
        Outcome.undefined :=
  ⟨_, rfl, rfl, rfl, fun h => Ptr.noConfusion h, rfl⟩

/-- C8, as stated, fails: after construction the returning call
`set(10485761, 7)` leaves `size() = 20971521`, which is no multiple of
`size_increment = 10485760`. -/
theorem capacity_multiple_counterexample :
    ∃ s : MmapAnon size_t,
      reach Examples.kernel_ok [⟨Examples.kernel_ok, Examples.key 10485761, 7⟩] = some s ∧
      s.size.val = 20971521 ∧ s.size.val % size_increment.val ≠ 0 :=
  ⟨_, rfl, rfl, by decide⟩

/-- C8, amended: in every state reached from construction by returning
`set` calls, `size()` is `k + size_increment` where `k` is zero or the key
of one of the calls; so `size()` is at least `size_increment`, and it is a
multiple of `size_increment` exactly when that `k` is. -/
theorem capacity_form (sys0 : Sys TValue) (calls : List (SetCall TValue)) (s : MmapAnon TValue)
    (hreach : reach sys0 calls = some s) :
    ∃ k, s.size.val = k + size_increment.val ∧ (k = 0 ∨ ∃ c ∈ calls, c.id.val = k) ∧
      size_increment.val ≤ s.size.val ∧
      (s.size.val % size_increment.val = 0 ↔ k % size_increment.val = 0) := by
  unfold MmapAnon.size
  rw [size_increment_val]
  obtain ⟨s0, hc, hr⟩ := MmapAnon.reach_eq_some hreach
  obtain ⟨hm, -⟩ := MmapAnon.construct_returned sys0 s0 hc
  have hv : s0.m_size.val = 10485760 := by rw [hm]; rfl
  rcases MmapAnon.run_size_form calls s0 s hr with h1 | ⟨c, hcm, h1⟩
  · exact ⟨0, by omega, Or.inl rfl, by omega, by omega⟩
  · exact ⟨c.id.val, h1, Or.inr ⟨c, hcm, rfl⟩, by omega, by omega⟩

/-- Witness of `capacity_form`: after construction, `set(2, 7)` and
`set(10485761, 7)` the capacity is `10485761 + size_increment`. -/
theorem capacity_form_witness :
    ∃ s : MmapAnon size_t,
      reach Examples.kernel_ok [⟨Examples.kernel_ok, Examples.key 2, 7⟩,
        ⟨Examples.kernel_ok, Examples.key 10485761, 7⟩] = some s ∧
      s.size.val = 10485761 + size_increment.val ∧
      ∃ k, s.size.val = k + size_increment.val ∧
        (k = 0 ∨ ∃ c ∈ [(⟨Examples.kernel_ok, Examples.key 2, 7⟩ : SetCall size_t),
          ⟨Examples.kernel_ok, Examples.key 10485761, 7⟩], c.id.val = k) ∧
        size_increment.val ≤ s.size.val ∧
        (s.size.val % size_increment.val = 0 ↔ k % size_increment.val = 0) :=
  ⟨_, rfl, rfl, capacity_form Examples.kernel_ok [⟨Examples.kernel_ok, Examples.key 2, 7⟩,
    ⟨Examples.kernel_ok, Examples.key 10485761, 7⟩] _ rfl⟩

/-- C9 (growth boundary): in every state with `size() >= 1` and for every
`v`, `set(size() - 1, v)` does not enter the growth branch: it is the bare
assignment `m_items[id] = value`, whatever the kernel would do, and `size()`
is unchanged.  `set(size(), v)` enters the growth branch: with a kernel that
cannot extend the region it throws `std::bad_alloc`, and when it returns,
`size()` is the old size plus `size_increment`, at least the old size plus
one. -/
theorem growth_boundary (s : MmapAnon TValue) (sys : Sys TValue) (v : TValue)
    (hs : 1 ≤ s.size.val) :
    (s.set sys ⟨s.size.val - 1, Nat.lt_of_le_of_lt (Nat.sub_le _ _) s.size.isLt⟩ v =
        assign_item s ⟨s.size.val - 1, Nat.lt_of_le_of_lt (Nat.sub_le _ _) s.size.isLt⟩ v ∧
      (s.set sys ⟨s.size.val - 1, Nat.lt_of_le_of_lt (Nat.sub_le _ _) s.size.isLt⟩ v).2.size =
        s.size) ∧
    (sys.succeeds = false →
      (s.set sys s.size v).1 = Outcome.threw Exception.bad_alloc) ∧
    ((s.set sys s.size v).1 = Outcome.returned () →
      (s.set sys s.size v).2.size.val = s.size.val + size_increment.val ∧
      s.size.val + 1 ≤ (s.set sys s.size v).2.size.val) := by
  unfold MmapAnon.size at *
  have hwithin := MmapAnon.set_within s sys
    ⟨s.m_size.val - 1, Nat.lt_of_le_of_lt (Nat.sub_le _ _) s.m_size.isLt⟩ v
    (by simp only []; omega)
  refine ⟨⟨hwithin, ?_⟩, ?_, ?_⟩
  · rw [hwithin, MmapAnon.assign_item_size]
  · intro hsys
    rw [MmapAnon.set_growth_failed s sys s.m_size v (Nat.le_refl _) hsys]
  · intro hset
    have hsize := MmapAnon.set_returned_size s sys s.m_size v hset
    rw [if_neg (Nat.lt_irrefl _)] at hsize
    rw [size_increment_val]
    omega

/-- Witness of `growth_boundary`: on a fresh instance (capacity 10485760)
`set(10485759, 7)` keeps the capacity, and `set(10485760, 7)` returns with
capacity `10485760 + size_increment`. -/
theorem growth_boundary_witness :
    ∃ s : MmapAnon size_t, construct Examples.kernel_ok = Outcome.returned s ∧
      (s.set Examples.kernel_ok (Examples.key 10485759) 7).2.size = s.size ∧
      (s.set Examples.kernel_ok s.size 7).2.size.val = 10485760 + size_increment.val :=
  ⟨_, rfl,
    (growth_boundary _ Examples.kernel_ok 7 (by decide)).1.2,
    ((growth_boundary _ Examples.kernel_ok 7 (by decide)).2.2 (by decide)).1⟩

/-- C10 (initial state): an instance whose constructor returned has
`size()` equal to `size_increment`, that is `10 * 1024 * 1024`, every slot
below `size()` holds `TValue()`, and `get(id)` throws `std::out_of_range`
for every key `id`. -/
theorem initial_state [DecidableEq TValue] (sys : Sys TValue) (s : MmapAnon TValue)
    (hnew : construct sys = Outcome.returned s) :
    s.size = size_increment ∧ s.size.val = 10 * 1024 * 1024 ∧
    (∀ j, j < s.size.val → s.slot j = some default) ∧
    ∀ id : TKey, (s.get id).1 = Outcome.threw Exception.out_of_range := by
  unfold MmapAnon.size
  obtain ⟨hm, -, cells, hp, hcells⟩ := MmapAnon.construct_returned sys s hnew
  have hv : s.m_size.val = 10485760 := by rw [hm]; rfl
  have hslots : ∀ j, j < s.m_size.val → s.slot j = some default := by
    intro j hj
    obtain ⟨m0, p0⟩ := s
    simp only [] at hp hv hj
    subst hp
    rw [MmapAnon.slot_mapped, if_pos (covers_mul_iff.mpr (by omega)), hcells _ (by omega)]
  refine ⟨hm, hv, hslots, ?_⟩
  intro id
  by_cases hlt : id.val < s.m_size.val
  · rw [MmapAnon.get_slot s id hlt, hslots _ hlt]
    simp
  · rw [MmapAnon.get_beyond s id (by omega)]

/-- Witness of `initial_state`: the constructor returns when the kernel maps
the region, and the instance has capacity 10485760 and `get(0)` throws. -/
theorem initial_state_witness :
    ∃ s : MmapAnon size_t, construct Examples.kernel_ok = Outcome.returned s ∧
      s.size.val = 10485760 ∧
      (s.get (Examples.key 0)).1 = Outcome.threw Exception.out_of_range :=
  ⟨_, rfl, (initial_state Examples.kernel_ok _ rfl).2.1,
    (initial_state Examples.kernel_ok _ rfl).2.2.2 (Examples.key 0)⟩

/-- C11 (clear resets): in every state `clear()` returns, and afterwards
`size()` is `0` (with `m_items` the null pointer) and `get(id)` throws
`std::out_of_range` for every key `id`. -/
theorem clear_resets [DecidableEq TValue] (s : MmapAnon TValue) :
    (MmapAnon.clear s).1 = Outcome.returned () ∧
    (MmapAnon.clear s).2.size.val = 0 ∧
    (MmapAnon.clear s).2.m_items = Ptr.nullptr ∧
    ∀ id : TKey, ((MmapAnon.clear s).2.get id).1 = Outcome.threw Exception.out_of_range := by
  refine ⟨rfl, rfl, rfl, fun id => ?_⟩
  rw [MmapAnon.get_beyond _ id (Nat.zero_le _)]

/-- C12, as stated, fails (for `uint64_t` values, where `TValue()` is `0`):
after construction, `set(5, 7)` and `set(5, 0)` the slot at `5` holds
`TValue()` although the sequence contains the call `set(5, 7)` with a value
other than `TValue()`. -/
theorem sentinel_invariant_counterexample :
    ∃ s : MmapAnon size_t,
      reach Examples.kernel_ok [⟨Examples.kernel_ok, Examples.key 5, 7⟩,
        ⟨Examples.kernel_ok, Examples.key 5, 0⟩] = some s ∧
      (Examples.key 5).val < s.size.val ∧
      s.slot (Examples.key 5).val = some 0 ∧
      ¬ (s.slot (Examples.key 5).val = some 0 ↔
        ¬ ∃ c ∈ [(⟨Examples.kernel_ok, Examples.key 5, 7⟩ : SetCall size_t),
          ⟨Examples.kernel_ok, Examples.key 5, 0⟩], c.id = Examples.key 5 ∧ c.value ≠ 0) :=
  ⟨_, rfl, by decide, rfl, fun h => h.mp rfl ⟨⟨Examples.kernel_ok, Examples.key 5, 7⟩,
    List.mem_cons_self _ _, rfl, by decide⟩⟩

/-- C12, amended: in every state reached from construction by returning
`set` calls and for every `id < size()`, the slot at `id` holds the value of
the last call `set(id, v)` of the sequence, and `TValue()` when there is no
such call.  So it equals `TValue()` exactly when no call has the key `id` or
the last one that has wrote `TValue()`; in particular it does when the
sequence contains no call `set(id, v)` with `v` other than `TValue()`. -/
theorem sentinel_invariant (sys0 : Sys TValue) (calls : List (SetCall TValue))
    (s : MmapAnon TValue) (id : TKey)
    (hreach : reach sys0 calls = some s) (hid : id.val < s.size.val) :
    s.slot id.val = some ((last_set calls id).getD default) ∧
    (s.slot id.val = some default ↔
      (last_set calls id = none ∨ last_set calls id = some default)) ∧
    ((∀ c ∈ calls, c.id = id → c.value = default) → s.slot id.val = some default) := by
  unfold MmapAnon.size at hid
  obtain ⟨s0, hc, hr⟩ := MmapAnon.reach_eq_some hreach
  obtain ⟨hm, -, cells, hp, hcells⟩ := MmapAnon.construct_returned sys0 s0 hc
  have hv : s0.m_size.val = 10485760 := by rw [hm]; rfl
  have h0 : id.val < s0.m_size.val → s0.slot id.val = some default := by
    intro hj
    obtain ⟨m0, p0⟩ := s0
    simp only [] at hp hv hj
    subst hp
    rw [MmapAnon.slot_mapped, if_pos (covers_mul_iff.mpr (by omega)), hcells _ (by omega)]
  have hslot := MmapAnon.run_slot calls s0 s id hr hid
  have hval : s.slot id.val = some ((last_set calls id).getD default) := by
    rw [hslot]
    cases hl : last_set calls id with
    | some x => rfl
    | none =>
      simp only [Option.getD_none]
      by_cases hj : id.val < s0.m_size.val
      · rw [if_pos hj, h0 hj]
      · rw [if_neg hj]
  refine ⟨hval, ?_, ?_⟩
  · rw [hval]
    cases hl : last_set calls id with
    | some x => simp
    | none => simp
  · intro hall
    rw [hval]
    cases hl : last_set calls id with
    | some x =>
      obtain ⟨c, hcm, hci, hcv⟩ := MmapAnon.last_set_mem calls id x hl
      rw [Option.getD_some, ← hcv, hall c hcm hci]
    | none => rfl

/-- Witness of `sentinel_invariant`: after construction, `set(5, 7)`,
`set(5, 0)` and `set(6, 9)`, slot `5` holds `0` (the last value written
there) and slot `6` holds `9`. -/
theorem sentinel_invariant_witness :
    ∃ s : MmapAnon size_t,
      reach Examples.kernel_ok [⟨Examples.kernel_ok, Examples.key 5, 7⟩,
        ⟨Examples.kernel_ok, Examples.key 5, 0⟩, ⟨Examples.kernel_ok, Examples.key 6, 9⟩] =
        some s ∧
      s.slot 5 = some 0 ∧ s.slot 6 = some 9 :=
  ⟨_, rfl,
    (sentinel_invariant Examples.kernel_ok [⟨Examples.kernel_ok, Examples.key 5, 7⟩,
      ⟨Examples.kernel_ok, Examples.key 5, 0⟩, ⟨Examples.kernel_ok, Examples.key 6, 9⟩] _
      (Examples.key 5) rfl (by decide)).1,
    (sentinel_invariant Examples.kernel_ok [⟨Examples.kernel_ok, Examples.key 5, 7⟩,
      ⟨Examples.kernel_ok, Examples.key 5, 0⟩, ⟨Examples.kernel_ok, Examples.key 6, 9⟩] _
      (Examples.key 6) rfl (by decide)).1⟩

/-- C13 (reads have no effect): in every state and for every key `id`,
`get(id)`, whether it returns or throws, leaves the state as it was: the
capacity, every slot, and with them the values of `size()` and
`used_memory()`; it never grows the capacity, also for `id >= size()`.
(`size()` and `used_memory()` are `const` members that only read `m_size`;
they are embedded as functions of the state.) -/
theorem reads_keep_state [DecidableEq TValue] (s : MmapAnon TValue) (id : TKey) :
    (s.get id).2 = s ∧
    (s.get id).2.size = s.size ∧
    (∀ j, (s.get id).2.slot j = s.slot j) ∧
    (s.get id).2.used_memory = s.used_memory := by
  rw [MmapAnon.get_state]
  exact ⟨rfl, rfl, fun _ => rfl, rfl⟩

/-- C14 (accounting): in every state reached from construction by returning
`set` calls, `used_memory()` is `size() * sizeof(TValue)` and the offsets
that have a slot are exactly those below `size()`, set or not; the equation
also holds after `clear()` and after a `set` call that threw. -/
theorem accounting (sys0 : Sys TValue) (calls : List (SetCall TValue)) (s : MmapAnon TValue)
    (hreach : reach sys0 calls = some s) :
    s.used_memory.val = s.size.val * ValueType.sizeof TValue ∧
    (∀ j, (∃ x, s.slot j = some x) ↔ j < s.size.val) ∧
    (MmapAnon.clear s).2.used_memory.val =
      (MmapAnon.clear s).2.size.val * ValueType.sizeof TValue ∧
    (∀ (sys : Sys TValue) (id : TKey) (v : TValue) (e : Exception),
      (s.set sys id v).1 = Outcome.threw e →
      (s.set sys id v).2.used_memory.val =
        (s.set sys id v).2.size.val * ValueType.sizeof TValue) := by
  obtain ⟨hfit, cells, hp⟩ := MmapAnon.reach_active hreach
  have hmem : s.used_memory.val = s.size.val * ValueType.sizeof TValue := by
    unfold MmapAnon.used_memory MmapAnon.size
    rw [to_size_t_val, Nat.mul_comm]
    exact Nat.mod_eq_of_lt hfit
  refine ⟨hmem, ?_, ?_, ?_⟩
  · intro j
    unfold MmapAnon.size
    obtain ⟨m, p⟩ := s
    simp only [] at hp
    subst hp
    rw [MmapAnon.slot_mapped]
    by_cases hj : j < m.val
    · rw [if_pos (covers_mul_iff.mpr hj)]
      exact ⟨fun _ => hj, fun _ => ⟨_, rfl⟩⟩
    · rw [if_neg (fun hc => hj (covers_mul_iff.mp hc))]
      exact ⟨fun ⟨x, hx⟩ => by simp at hx, fun h => absurd h hj⟩
  · unfold MmapAnon.clear MmapAnon.used_memory MmapAnon.size
    simp
  · intro sys id v e hthrew
    have hsame := MmapAnon.set_threw_size s sys id v e hthrew
    unfold MmapAnon.used_memory MmapAnon.size at hmem ⊢
    rw [hsame]
    exact hmem

/-- Witness of `accounting`: after construction and `set(2, 7)` a single slot
was set, `size()` is 10485760 and `used_memory()` is `10485760 * 8`. -/
theorem accounting_witness :
    ∃ s : MmapAnon size_t,
      reach Examples.kernel_ok [⟨Examples.kernel_ok, Examples.key 2, 7⟩] = some s ∧
      s.size.val = 10485760 ∧ s.used_memory.val = s.size.val * 8 :=
  ⟨_, rfl, rfl,
    (accounting Examples.kernel_ok [⟨Examples.kernel_ok, Examples.key 2, 7⟩] _ rfl).1⟩

/-- C15 (stored sentinel reads as absent): in every state and for every key
`id`, once `set(id, TValue())` has returned, the slot at `id` holds
`TValue()` and `get(id)` throws `std::out_of_range`, whatever the slot held
before. -/
theorem stored_sentinel_absent [DecidableEq TValue] (s : MmapAnon TValue) (sys : Sys TValue)
    (id : TKey) (hset : (s.set sys id default).1 = Outcome.returned ()) :
    (s.set sys id default).2.slot id.val = some default ∧
      ((s.set sys id default).2.get id).1 = Outcome.threw Exception.out_of_range := by
  obtain ⟨hlt, hslot⟩ := MmapAnon.set_returned_slot_self s sys id default hset
  refine ⟨hslot, ?_⟩
  rw [MmapAnon.get_slot _ _ hlt, hslot]
  simp

/-- Witness of `stored_sentinel_absent`: after construction and `set(2, 7)`,
`get(2)` returns `7`; after `set(2, 0)` it throws `std::out_of_range`. -/
theorem stored_sentinel_absent_witness :
    ∃ s : MmapAnon size_t,
      reach Examples.kernel_ok [⟨Examples.kernel_ok, Examples.key 2, 7⟩] = some s ∧
      (s.get (Examples.key 2)).1 = Outcome.returned 7 ∧
      ((s.set Examples.kernel_ok (Examples.key 2) 0).2.get (Examples.key 2)).1 =
        Outcome.threw Exception.out_of_range :=
  ⟨_, rfl, rfl,
    (stored_sentinel_absent _ Examples.kernel_ok (Examples.key 2) (by decide)).2⟩

/-- C16 (in-bounds write): in every state and for every key `id` that takes
the growth branch (`id >= size()`) with `id + size_increment <= SIZE_MAX`,
the `new_size` of the branch is greater than `id` and greater than the old
capacity, and the count `new_size - m_size` of newly initialised slots is
positive.  When the call returns, `size()` is that `new_size`, so the write
`m_items[id]` was at an offset below `size()`.  On a live non-empty
instance the call does return when the kernel extends the region and the
byte count fits `size_t`: the write stays inside the region. -/
theorem in_bounds_write (s : MmapAnon TValue) (sys : Sys TValue) (id : TKey) (v : TValue)
    (hgrow : s.size.val ≤ id.val) (hnowrap : id.val + size_increment.val ≤ 2 ^ 64 - 1) :
    id.val < (to_size_t (id.val + size_increment.val)).val ∧
    s.size.val < (to_size_t (id.val + size_increment.val)).val ∧
    0 < (to_size_t ((to_size_t (id.val + size_increment.val)).val + 2 ^ 64 - s.size.val)).val ∧
    ((s.set sys id v).1 = Outcome.returned () →
      (s.set sys id v).2.size = to_size_t (id.val + size_increment.val) ∧
      id.val < (s.set sys id v).2.size.val) ∧
    (s.Active → 0 < s.size.val → sys.succeeds = true →
      ValueType.sizeof TValue * (id.val + size_increment.val) < 2 ^ 64 →
      (s.set sys id v).1 = Outcome.returned ()) := by
  unfold MmapAnon.size at *
  rw [size_increment_val] at *
  have hm := s.m_size.isLt
  simp only [to_size_t_val]
  refine ⟨by omega, by omega, by omega, ?_, ?_⟩
  · intro hset
    have hsize := MmapAnon.set_returned_size s sys id v hset
    rw [if_neg (by omega)] at hsize
    refine ⟨Fin.ext ?_, by omega⟩
    rw [hsize, to_size_t_val]
    omega
  · intro ha hpos hsys hfit
    exact MmapAnon.set_grow_returns s sys id v ha hpos hgrow hsys hfit

/-- Witness of `in_bounds_write`: on a fresh instance `set(20000000, 3)`
takes the growth branch without wraparound, returns, and leaves
`size() = 30485760 > 20000000`. -/
theorem in_bounds_write_witness :
    ∃ s : MmapAnon size_t, construct Examples.kernel_ok = Outcome.returned s ∧
      (s.set Examples.kernel_ok (Examples.key 20000000) 3).1 = Outcome.returned () ∧
      (s.set Examples.kernel_ok (Examples.key 20000000) 3).2.size.val = 30485760 ∧
      (Examples.key 20000000).val < (s.set Examples.kernel_ok (Examples.key 20000000) 3).2.size.val :=
  ⟨_, rfl, rfl, rfl,
    ((in_bounds_write _ Examples.kernel_ok (Examples.key 20000000) 3 (by decide)
      (by decide)).2.2.2.1 (by decide)).2⟩

/-- C17 (over-allocation bound): in every state reached from construction
by a sequence of returning `set` calls, `size()` is still `size_increment`
or is `id + size_increment` for the key `id` of one of the calls; hence
`size_increment <= size() <= max(size_increment, max(id_i) + size_increment)`. -/
theorem over_allocation_bound (sys0 : Sys TValue) (calls : List (SetCall TValue))
    (s : MmapAnon TValue) (hreach : reach sys0 calls = some s) :
    (s.size = size_increment ∨ ∃ c ∈ calls, s.size.val = c.id.val + size_increment.val) ∧
    size_increment.val ≤ s.size.val ∧
    s.size.val ≤ max size_increment.val (max_id calls + size_increment.val) := by
  unfold MmapAnon.size
  rw [size_increment_val]
  obtain ⟨s0, hc, hr⟩ := MmapAnon.reach_eq_some hreach
  obtain ⟨hm, -⟩ := MmapAnon.construct_returned sys0 s0 hc
  have hv : s0.m_size.val = 10485760 := by rw [hm]; rfl
  rcases MmapAnon.run_size_form calls s0 s hr with h1 | ⟨c, hcm, h1⟩
  · refine ⟨Or.inl (Fin.ext ?_), by omega, ?_⟩
    · rw [h1, hv]; rfl
    · exact Nat.le_trans (by omega) (Nat.le_max_left _ _)
  · have hle := MmapAnon.le_max_id calls c hcm
    refine ⟨Or.inr ⟨c, hcm, h1⟩, by omega, ?_⟩
    exact Nat.le_trans (by omega) (Nat.le_max_right _ _)

/-- Witness of `over_allocation_bound`: after construction, `set(20000000, 3)`
and `set(2, 7)`, `size()` is `20000000 + size_increment`, the upper bound. -/
theorem over_allocation_bound_witness :
    ∃ s : MmapAnon size_t,
      reach Examples.kernel_ok [⟨Examples.kernel_ok, Examples.key 20000000, 3⟩,
        ⟨Examples.kernel_ok, Examples.key 2, 7⟩] = some s ∧
      s.size.val = 30485760 ∧
      s.size.val ≤ max size_increment.val
        (max_id [(⟨Examples.kernel_ok, Examples.key 20000000, 3⟩ : SetCall size_t),
          ⟨Examples.kernel_ok, Examples.key 2, 7⟩] + size_increment.val) :=
  ⟨_, rfl, rfl,
    (over_allocation_bound Examples.kernel_ok [⟨Examples.kernel_ok, Examples.key 20000000, 3⟩,
      ⟨Examples.kernel_ok, Examples.key 2, 7⟩] _ rfl).2.2⟩

/-- C18 (last write wins): in every state, for every key `id` and values
`v1`, `v2`: when `set(id, v1)` returns, a following `set(id, v2)` returns as
well (it needs no growth), `set(id, v2)` alone returns for the same kernel
behaviour, and whenever `set(id, v2)` alone returns it leaves the same
capacity and the same slot at every offset as the two calls in sequence.
With `v1 = v2` this is idempotence of `set(id, v)`. -/
theorem last_write_wins (s : MmapAnon TValue) (sys1 sys2 sys3 : Sys TValue) (id : TKey)
    (v1 v2 : TValue) (h1 : (s.set sys1 id v1).1 = Outcome.returned ())
    (h3 : (s.set sys3 id v2).1 = Outcome.returned ()) :
    ((s.set sys1 id v1).2.set sys2 id v2).1 = Outcome.returned () ∧
    (s.set sys1 id v2).1 = Outcome.returned () ∧
    ((s.set sys1 id v1).2.set sys2 id v2).2.size = (s.set sys3 id v2).2.size ∧
    ∀ j, ((s.set sys1 id v1).2.set sys2 id v2).2.slot j = (s.set sys3 id v2).2.slot j := by
  obtain ⟨hlt, hself⟩ := MmapAnon.set_returned_slot_self s sys1 id v1 h1
  have h2 : ((s.set sys1 id v1).2.set sys2 id v2).1 = Outcome.returned () := by
    rw [MmapAnon.set_within _ sys2 id v2 hlt]
    exact MmapAnon.assign_item_returns _ id v2 v1 hself
  have hs1 := MmapAnon.set_returned_size s sys1 id v1 h1
  have hs2 := MmapAnon.set_returned_size _ sys2 id v2 h2
  have hs3 := MmapAnon.set_returned_size s sys3 id v2 h3
  rw [if_pos hlt] at hs2
  refine ⟨h2, ?_, ?_, ?_⟩
  · rw [← MmapAnon.set_outcome_value s sys1 id v1 v2]
    exact h1
  · unfold MmapAnon.size
    exact Fin.ext (by rw [hs2, hs1, hs3])
  · intro j
    rw [MmapAnon.set_returned_slot _ sys2 id v2 h2 j, MmapAnon.set_returned_slot s sys3 id v2 h3 j]
    by_cases hj : j = id.val
    · rw [if_pos hj, if_pos hj]
    · rw [if_neg hj, if_neg hj, if_pos (Or.inl hlt), MmapAnon.set_returned_slot s sys1 id v1 h1 j,
        if_neg hj]

/-- Witness of `last_write_wins`: on a fresh instance, `set(20000000, 3)`
followed by `set(20000000, 4)` and `set(20000000, 4)` alone both leave
capacity 30485760 with `4` in slot 20000000. -/
theorem last_write_wins_witness :
    ∃ s : MmapAnon size_t, construct Examples.kernel_ok = Outcome.returned s ∧
      ((s.set Examples.kernel_ok (Examples.key 20000000) 3).2.set Examples.kernel_full
        (Examples.key 20000000) 4).2.size =
        (s.set Examples.kernel_ok (Examples.key 20000000) 4).2.size ∧
      ((s.set Examples.kernel_ok (Examples.key 20000000) 3).2.set Examples.kernel_full
        (Examples.key 20000000) 4).2.slot 20000000 = some 4 ∧
      ∀ j, ((s.set Examples.kernel_ok (Examples.key 20000000) 3).2.set Examples.kernel_full
        (Examples.key 20000000) 4).2.slot j =
        (s.set Examples.kernel_ok (Examples.key 20000000) 4).2.slot j :=
  ⟨_, rfl,
    (last_write_wins _ Examples.kernel_ok Examples.kernel_full Examples.kernel_ok
      (Examples.key 20000000) 3 4 (by decide) (by decide)).2.2.1,
    rfl,
    (last_write_wins _ Examples.kernel_ok Examples.kernel_full Examples.kernel_ok
      (Examples.key 20000000) 3 4 (by decide) (by decide)).2.2.2⟩

/-- C19 (insertion order): in every state, for distinct keys `a`, `b` and
values `v`, `w`, when the calls of both orders return, the state after
`set(a, v); set(b, w)` and the state after `set(b, w); set(a, v)` give the
same outcome of `get(k)` at every key `k`; on a live instance that outcome
is a returned value or `std::out_of_range`, never undefined behaviour.
(`size()` may differ between the two orders.) -/
theorem order_independent [DecidableEq TValue] (s : MmapAnon TValue)
    (sys1 sys2 sys3 sys4 : Sys TValue) (a b : TKey) (v w : TValue) (k : TKey) (hab : a ≠ b)
    (h1 : (s.set sys1 a v).1 = Outcome.returned ())
    (h2 : ((s.set sys1 a v).2.set sys2 b w).1 = Outcome.returned ())
    (h3 : (s.set sys3 b w).1 = Outcome.returned ())
    (h4 : ((s.set sys3 b w).2.set sys4 a v).1 = Outcome.returned ()) :
    (((s.set sys1 a v).2.set sys2 b w).2.get k).1 =
      (((s.set sys3 b w).2.set sys4 a v).2.get k).1 ∧
    (s.Active →
      (∃ x, (((s.set sys1 a v).2.set sys2 b w).2.get k).1 = Outcome.returned x) ∨
        (((s.set sys1 a v).2.set sys2 b w).2.get k).1 =
          Outcome.threw Exception.out_of_range) := by
  refine ⟨?_, fun ha => MmapAnon.Active.get_defined _
    (MmapAnon.set_returned_active _ sys2 b w
      (MmapAnon.set_returned_active s sys1 a v ha h1) h2) k⟩
  have hab2 : a.val ≠ b.val := fun e => hab (Fin.ext e)
  have hs1 := MmapAnon.set_returned_size s sys1 a v h1
  have hs2 := MmapAnon.set_returned_size _ sys2 b w h2
  have hs3 := MmapAnon.set_returned_size s sys3 b w h3
  have hs4 := MmapAnon.set_returned_size _ sys4 a v h4
  rw [MmapAnon.get_outcome, MmapAnon.get_outcome,
    MmapAnon.set_returned_slot _ sys2 b w h2 k.val,
    MmapAnon.set_returned_slot _ sys4 a v h4 k.val,
    MmapAnon.set_returned_slot s sys1 a v h1 k.val,
    MmapAnon.set_returned_slot s sys3 b w h3 k.val]
  generalize ((s.set sys1 a v).2.set sys2 b w).2.m_size.val = n2 at *
  generalize ((s.set sys3 b w).2.set sys4 a v).2.m_size.val = n4 at *
  generalize (s.set sys1 a v).2.m_size.val = n1 at *
  generalize (s.set sys3 b w).2.m_size.val = n3 at *
  generalize s.slot k.val = o
  generalize s.m_size.val = m at *
  clear h1 h2 h3 h4
  by_cases hka : k.val = a.val
  · have e1 : a.val < n1 := by split_ifs at hs1 <;> omega
    have e2 : ¬ n2 ≤ a.val := by split_ifs at hs1 hs2 <;> omega
    have e4 : ¬ n4 ≤ a.val := by split_ifs at hs3 hs4 <;> omega
    rw [hka, if_neg e2, if_neg e4, if_neg hab2, if_pos (Or.inr e1), if_pos rfl, if_pos rfl]
  by_cases hkb : k.val = b.val
  · have e3 : b.val < n3 := by split_ifs at hs3 <;> omega
    have e2 : ¬ n2 ≤ b.val := by split_ifs at hs1 hs2 <;> omega
    have e4 : ¬ n4 ≤ b.val := by split_ifs at hs3 hs4 <;> omega
    rw [hkb, if_neg e2, if_neg e4, if_pos rfl, if_neg (Ne.symm hab2), if_pos (Or.inr e3),
      if_pos rfl]
  simp only [if_neg hka, if_neg hkb]
  by_cases hkm : k.val < m
  · have e1 : k.val < n1 := by split_ifs at hs1 <;> omega
    have e3 : k.val < n3 := by split_ifs at hs3 <;> omega
    have e2 : ¬ n2 ≤ k.val := by split_ifs at hs1 hs2 <;> omega
    have e4 : ¬ n4 ≤ k.val := by split_ifs at hs3 hs4 <;> omega
    rw [if_neg e2, if_neg e4, if_pos (Or.inr e1), if_pos (Or.inr hkm), if_pos (Or.inr e3),
      if_pos (Or.inr hkm)]
  · refine Eq.trans (?_ : _ = Outcome.threw Exception.out_of_range) (Eq.symm ?_)
    · clear hs3 hs4
      split_ifs at hs1 hs2 ⊢ <;> first | omega | simp
    · clear hs1 hs2
      split_ifs at hs3 hs4 ⊢ <;> first | omega | simp

/-- Witness of `order_independent`: on a fresh instance the keys 11000000
and 12000000 set in the two orders leave capacities 21485760 and 22485760,
and `get(21500000)` has the same outcome in both, `std::out_of_range`:
beyond the capacity in the first, an unset slot in the second. -/
theorem order_independent_witness :
    ∃ s : MmapAnon size_t, construct Examples.kernel_ok = Outcome.returned s ∧
      ((s.set Examples.kernel_ok (Examples.key 11000000) 3).2.set Examples.kernel_ok
        (Examples.key 12000000) 4).2.size.val = 21485760 ∧
      ((s.set Examples.kernel_ok (Examples.key 12000000) 4).2.set Examples.kernel_ok
        (Examples.key 11000000) 3).2.size.val = 22485760 ∧
      (((s.set Examples.kernel_ok (Examples.key 11000000) 3).2.set Examples.kernel_ok
        (Examples.key 12000000) 4).2.get (Examples.key 21500000)).1 =
        Outcome.threw Exception.out_of_range ∧
      (((s.set Examples.kernel_ok (Examples.key 11000000) 3).2.set Examples.kernel_ok
        (Examples.key 12000000) 4).2.get (Examples.key 21500000)).1 =
      (((s.set Examples.kernel_ok (Examples.key 12000000) 4).2.set Examples.kernel_ok
        (Examples.key 11000000) 3).2.get (Examples.key 21500000)).1 :=
  ⟨_, rfl, rfl, rfl, rfl,
    (order_independent _ Examples.kernel_ok Examples.kernel_ok Examples.kernel_ok
      Examples.kernel_ok (Examples.key 11000000) (Examples.key 12000000) 3 4
      (Examples.key 21500000) (by decide) (by decide) (by decide) (by decide)
      (by decide)).1⟩

end Claims

end Osmium
